import Mathlib

/-!
Verification development for the Solana transaction-count aggregation script
(`index.js` and its retry-enabled variant).  The JavaScript source is shallowly
embedded: each remote-procedure call of the `Connection` collaborator is
modelled as a pure function supplied as a parameter, asynchronous exceptions
are modelled with `Except`, and machine-visible side effects that the spec
talks about (number of invocations, back-off waits) are recorded explicitly in
the return values.
-/

namespace SolanaTxnCount

/-! ### RetryExecutor (`withRetry`, variant source lines 5–25)

`withRetry(operation, maxAttempts, delay)` runs `operation` up to `maxAttempts`
times.  The operation is modelled as a function from the 1-based attempt number
to an `Except` outcome, which lets one operation behave differently across
attempts (e.g. fail twice, then succeed).  The result records, besides the
JavaScript return/throw value, the number of invocations of the operation and
the list of back-off waits that were performed (in milliseconds).  The thrown
value is `Option E` because the source throws the variable `lastError`, which
is still `undefined` (modelled `none`) when the loop body never ran. -/

structure RetryResult (E A : Type) where
  result : Except (Option E) A
  invocations : Nat
  waits : List Nat

/-- One step per remaining attempt: `attempt` is the 1-based attempt counter,
`remaining` the number of attempts still allowed (so `remaining = 0` models
`attempt > maxAttempts`, where the source throws `lastError`).  A failed
attempt that is not the last one (`remaining > 1`, i.e. `attempt < maxAttempts`)
waits `delay` and doubles `delay`. -/
def withRetryAux (op : Nat → Except E A) :
    Nat → Nat → Nat → Option E → Nat → List Nat → RetryResult E A
  | _, 0, _, lastError, invoked, waits => ⟨Except.error lastError, invoked, waits⟩
  | attempt, remaining + 1, delay, _, invoked, waits =>
    match op attempt with
    | Except.ok v => ⟨Except.ok v, invoked + 1, waits⟩
    | Except.error e =>
      if remaining = 0 then
        withRetryAux op (attempt + 1) remaining delay (some e) (invoked + 1) waits
      else
        withRetryAux op (attempt + 1) remaining (delay * 2) (some e) (invoked + 1)
          (waits ++ [delay])

/-- `withRetry` of the source: start at attempt 1 with `lastError` undefined. -/
def withRetry (op : Nat → Except E A) (maxAttempts delay : Nat) : RetryResult E A :=
  withRetryAux op 1 maxAttempts delay none 0 []

/-! ### AddressLoader (`readAddressesFromFile`, variant source lines 120–137)

The file contents are modelled as the list of lines obtained from
`data.trim().split('\n')`; the `PublicKey`-constructor validity check of the
external key library is modelled as a boolean predicate parameter.  The
JavaScript `Set` preserves insertion order, and `Array.from` returns that
order, so the set is modelled as a list to which an element is appended only
when absent. -/

/-- The JavaScript built-in `String.prototype.trim`: drop leading and trailing
whitespace (modelled directly on the character list so that it evaluates in
the kernel). -/
def trimStr (s : String) : String :=
  String.mk
    (((s.data.dropWhile Char.isWhitespace).reverse.dropWhile Char.isWhitespace).reverse)

/-- The loop body for one line: trim, validate, and add to the (ordered) set;
an invalid line is reported and dropped without aborting the load. -/
def addLine (valid : String → Bool) (addresses : List String) (line : String) :
    List String :=
  let address := trimStr line
  if valid address then
    if address ∈ addresses then addresses else addresses ++ [address]
  else addresses

def readAddressesFromFile (valid : String → Bool) (lines : List String) : List String :=
  lines.foldl (addLine valid) []

/-! ### StakeAccountResolver (`getStakeAccountsForAddress`, variant source lines 47–78)

`connection.getProgramAccounts(StakeProgram.programId, {filters})` is modelled
as filtering a ledger (a list of program accounts, each with owner and raw data
bytes) by ownership and by the two requested filters: `dataSize: 200` and
`memcmp {offset: 44, bytes: address}`.  The possibility that the RPC transport
itself fails on a given attempt is modelled by the `rpc` parameter. -/

structure ProgramAccount where
  pubkey : String
  owner : String
  data : List Nat
  deriving Repr, DecidableEq

def stakeProgramId : String := "Stake11111111111111111111111111111111111111"

def matchesDataSize (n : Nat) (acct : ProgramAccount) : Bool :=
  acct.data.length == n

def matchesMemcmp (offset : Nat) (bytes : List Nat) (acct : ProgramAccount) : Bool :=
  (acct.data.drop offset).take bytes.length == bytes

def getProgramAccounts (ledger : List ProgramAccount) (programId : String)
    (dataSize : Nat) (offset : Nat) (bytes : List Nat) : List ProgramAccount :=
  ledger.filter fun acct =>
    acct.owner == programId && matchesDataSize dataSize acct
      && matchesMemcmp offset bytes acct

def getStakeAccountsForAddress (rpc : Nat → Except String Unit)
    (ledger : List ProgramAccount) (addressBytes : List Nat) :
    RetryResult String (List ProgramAccount) :=
  withRetry
    (fun attempt =>
      (rpc attempt).map fun _ =>
        getProgramAccounts ledger stakeProgramId 200 44 addressBytes)
    3 1000

/-! ### SignatureHistoryFetcher (`getSignaturesForAddress`, variant source lines 93–118)

The do/while pagination loop.  `connection.getSignaturesForAddress(pk,
{before, limit: 1000})` is modelled as a function `fetch` from the `before`
cursor (the signature of the oldest record of the previous batch, or `none`)
to the returned batch; signatures are modelled as natural numbers.  The loop
is written with explicit fuel so that it is total in Lean; the theorems below
show the fuel hypothesis is met by every finite history.  The result pairs the
concatenated signature list with the number of RPC calls made. -/

def getSignaturesLoop (fetch : Option Nat → List Nat) :
    Nat → Option Nat → List Nat → Nat → Option (List Nat × Nat)
  | 0, _, _, _ => none
  | fuel + 1, cursor, signatures, calls =>
    let fetched := fetch cursor
    let signatures := signatures ++ fetched
    let lastSignature := fetched.getLast?
    if fetched.length = 1000 then
      getSignaturesLoop fetch fuel lastSignature signatures (calls + 1)
    else
      some (signatures, calls + 1)

def getSignaturesForAddress (fetch : Option Nat → List Nat) (fuel : Nat) :
    Option (List Nat × Nat) :=
  getSignaturesLoop fetch fuel none [] 0

/-- The RPC semantics of a ledger whose complete newest-first history for the
queried address is `0, 1, ..., n-1` (records identified by their signature):
a query with no cursor returns the first up-to-1000 records, and a query with
cursor `s` returns the up-to-1000 records strictly after record `s`. -/
def histFetch (n : Nat) : Option Nat → List Nat
  | none => List.range' 0 (min 1000 n)
  | some s => List.range' (s + 1) (min 1000 (n - (s + 1)))

/-- The sequence of cursors the loop would pass to `fetch`, starting from a
given cursor: the next cursor is the last signature of the current batch
(`none` for an empty batch), exactly as the loop computes it. -/
def cursorTraceFrom (fetch : Option Nat → List Nat) : Option Nat → Nat → Option Nat
  | c, 0 => c
  | c, k + 1 => cursorTraceFrom fetch (fetch c).getLast? k

/-! ### Aggregator (`getTotalTransactionCount`, variant source lines 139–203)

The aggregator consults three (already retry-wrapped) remote operations per
address; an `Except.error` models the underlying retries being exhausted so
that the call throws.  `StakeAcct` carries the public key that
`getAssociatedStakeAccounts` extracts with `pubkey.toBase58()`. -/

structure StakeAcct where
  pubkey : String
  deriving Repr, DecidableEq

structure Env where
  parsedIsStake : String → Except String Bool
  stakeAccts : String → Except String (List StakeAcct)
  sigsFor : String → Except String (List String)

/-- `hasStakeAccount`: the stake-account lookup, tested for non-emptiness with
`isArrayNotEmpty` (source lines 27–29 and 41–45). -/
def hasStakeAccount (env : Env) (address : String) : Except String Bool :=
  (env.stakeAccts address).map fun stakeAccounts => !stakeAccounts.isEmpty

/-- `getAssociatedStakeAccounts` (source lines 80–91): the pubkeys of the
discovered stake accounts. -/
def getAssociatedStakeAccounts (env : Env) (address : String) :
    Except String (List String) :=
  (env.stakeAccts address).map (List.map StakeAcct.pubkey)

/-- The associated-stake-account loop of the authority branch (source lines
168–178): adds each stake account's signature count to the running total, one
at a time; a thrown error keeps the additions already performed, which the
error value records. -/
def addAssociated (env : Env) : Nat → List String → Except (String × Nat) Nat
  | total, [] => Except.ok total
  | total, stakeAccount :: rest =>
    match env.sigsFor stakeAccount with
    | Except.error e => Except.error (e, total)
    | Except.ok sigs => addAssociated env (total + sigs.length) rest

/-- The body of the per-address `try` block (source lines 143–195), threading
the mutable `totalTransactions`.  `Except.ok` carries the updated total;
`Except.error` carries the thrown message together with the total at the
moment of the throw (the incremental `+=` updates already performed stay). -/
def processAddress (env : Env) (address : String) (total : Nat) :
    Except (String × Nat) Nat :=
  match env.parsedIsStake address with
  | Except.error e => Except.error (e, total)
  | Except.ok isStake =>
    if isStake then
      match env.sigsFor address with
      | Except.error e => Except.error (e, total)
      | Except.ok sigs => Except.ok (total + sigs.length)
    else
      match hasStakeAccount env address with
      | Except.error e => Except.error (e, total)
      | Except.ok hs =>
        if hs then
          match env.sigsFor address with
          | Except.error e => Except.error (e, total)
          | Except.ok sigs =>
            match getAssociatedStakeAccounts env address with
            | Except.error e => Except.error (e, total + sigs.length)
            | Except.ok assoc => addAssociated env (total + sigs.length) assoc
        else
          match hasStakeAccount env address with
          | Except.error e => Except.error (e, total)
          | Except.ok hs2 =>
            if !hs2 && !isStake then
              match env.sigsFor address with
              | Except.error e => Except.error (e, total)
              | Except.ok sigs => Except.ok (total + sigs.length)
            else
              Except.ok total

/-- `getTotalTransactionCount`: the per-address loop with its `try`/`catch`;
a caught error leaves the total as it stood and continues with the next
address (`continue`). -/
def getTotalTransactionCount (env : Env) (addresses : List String) : Nat :=
  addresses.foldl
    (fun total address =>
      match processAddress env address total with
      | Except.ok t => t
      | Except.error (_, t) => t)
    0

/-! ### AccountClassifier

The spec names a four-way classification `AccountKind`; in the source it is
the branch structure of `getTotalTransactionCount` (lines 149–191): the
`if`/`else if` chain over the two signals, with the final `else` (the
`'invalid address'` log) as the leftover case.  `classify` extracts exactly
that chain over the two boolean signals. -/

inductive AccountKind where
  | StakeAccount
  | AuthorityAccount
  | NormalAccount
  | Indeterminate
  deriving Repr, DecidableEq

def classify (isStakeAccountItself hasAssociatedStakeAccounts : Bool) : AccountKind :=
  if isStakeAccountItself then AccountKind.StakeAccount
  else if hasAssociatedStakeAccounts then AccountKind.AuthorityAccount
  else if !hasAssociatedStakeAccounts && !isStakeAccountItself then
    AccountKind.NormalAccount
  else AccountKind.Indeterminate

/-- A fault-free environment built from pure assignments of the three signals,
as in C1's "every assignment of per-address signature histories and
associated-stake-account sets". -/
def pureEnv (isStake : String → Bool) (stakes : String → List StakeAcct)
    (sigs : String → List String) : Env :=
  ⟨fun a => Except.ok (isStake a),
   fun a => Except.ok (stakes a),
   fun a => Except.ok (sigs a)⟩

/-! ### Concrete test doubles used by witnesses and counterexamples -/

/-- An operation that fails on attempts 1 and 2 and succeeds on attempt 3. -/
def opFailsTwice : Nat → Except Nat Nat :=
  fun n => if n ≤ 2 then Except.error n else Except.ok 7

/-! ### Helper lemmas about `withRetryAux` -/

theorem withRetryAux_invocations_le (op : Nat → Except E A) :
    ∀ (remaining attempt delay : Nat) (lastError : Option E) (invoked : Nat)
      (waits : List Nat),
      (withRetryAux op attempt remaining delay lastError invoked waits).invocations
        ≤ invoked + remaining := by
  intro remaining
  induction remaining with
  | zero => intro attempt delay lastError invoked waits; simp [withRetryAux]
  | succ r ih =>
    intro attempt delay lastError invoked waits
    simp only [withRetryAux]
    cases op attempt with
    | ok v => simp
    | error e =>
      by_cases h0 : r = 0
      · subst h0
        simp [withRetryAux]
      · simp only [h0, if_false]
        calc (withRetryAux op (attempt + 1) r (delay * 2) (some e) (invoked + 1)
                (waits ++ [delay])).invocations
            ≤ (invoked + 1) + r := ih _ _ _ _ _
          _ ≤ invoked + (r + 1) := by omega

theorem withRetryAux_waits_geometric (op : Nat → Except E A) (d : Nat) :
    ∀ (remaining attempt m : Nat) (lastError : Option E) (invoked : Nat),
      ∃ m', (withRetryAux op attempt remaining (d * 2 ^ m) lastError invoked
              ((List.range m).map fun k => d * 2 ^ k)).waits
            = (List.range m').map fun k => d * 2 ^ k := by
  intro remaining
  induction remaining with
  | zero => intro attempt m lastError invoked; exact ⟨m, by simp [withRetryAux]⟩
  | succ r ih =>
    intro attempt m lastError invoked
    simp only [withRetryAux]
    cases op attempt with
    | ok v => exact ⟨m, by simp⟩
    | error e =>
      by_cases h0 : r = 0
      · subst h0
        exact ⟨m, by simp [withRetryAux]⟩
      · simp only [h0, if_false]
        have hdelay : d * 2 ^ m * 2 = d * 2 ^ (m + 1) := by
          rw [pow_succ, Nat.mul_assoc]
        have hwaits : ((List.range m).map fun k => d * 2 ^ k) ++ [d * 2 ^ m]
            = (List.range (m + 1)).map fun k => d * 2 ^ k := by
          rw [List.range_succ, List.map_append]; simp
        rw [hdelay, hwaits]
        exact ih _ (m + 1) _ _

theorem withRetryAux_invocations_eq_waits (op : Nat → Except E A) :
    ∀ (remaining : Nat), 1 ≤ remaining →
      ∀ (attempt delay : Nat) (lastError : Option E) (invoked : Nat) (waits : List Nat),
      (withRetryAux op attempt remaining delay lastError invoked waits).invocations
          + waits.length
        = invoked
            + (withRetryAux op attempt remaining delay lastError invoked waits).waits.length
            + 1 := by
  intro remaining
  induction remaining with
  | zero => omega
  | succ r ih =>
    intro _ attempt delay lastError invoked waits
    simp only [withRetryAux]
    cases op attempt with
    | ok v => simp; omega
    | error e =>
      by_cases h0 : r = 0
      · subst h0
        simp [withRetryAux]; omega
      · simp only [h0, if_false]
        have := ih (by omega) (attempt + 1) (delay * 2) (some e) (invoked + 1)
          (waits ++ [delay])
        simp only [List.length_append, List.length_singleton] at this
        omega

/-- C5: with `maxAttempts = 3`, an operation that fails on its first two
attempts is invoked exactly 3 times: if the third attempt succeeds the success
value is returned, and if it fails the (last) failure is thrown; moreover no
operation is ever invoked more often than its configured `maxAttempts`. -/
theorem withRetry_three_attempts (op : Nat → Except E A) (d : Nat) (e1 e2 : E)
    (h1 : op 1 = Except.error e1) (h2 : op 2 = Except.error e2) :
    (∀ v, op 3 = Except.ok v →
        withRetry op 3 d = ⟨Except.ok v, 3, [d, d * 2]⟩)
    ∧ (∀ e3, op 3 = Except.error e3 →
        withRetry op 3 d = ⟨Except.error (some e3), 3, [d, d * 2]⟩)
    ∧ ∀ (op2 : Nat → Except E A) (n d2 : Nat),
        (withRetry op2 n d2).invocations ≤ n := by
  refine ⟨?_, ?_, ?_⟩
  · intro v h3
    simp [withRetry, withRetryAux, h1, h2, h3]
  · intro e3 h3
    simp [withRetry, withRetryAux, h1, h2, h3]
  · intro op2 n d2
    simpa using withRetryAux_invocations_le op2 n 1 d2 none 0 []

/-- Witness for `withRetry_three_attempts` at the concrete operation
`opFailsTwice` with `initialDelay = 5`. -/
theorem withRetry_three_attempts_witness :
    withRetry opFailsTwice 3 5 = ⟨Except.ok 7, 3, [5, 5 * 2]⟩ :=
  (withRetry_three_attempts opFailsTwice 5 1 2 rfl rfl).1 7 rfl

/-- C6: the recorded back-off waits always form the geometric sequence
`initialDelay * 2 ^ k` (so the wait before the k-th retry, 1-indexed, is
`initialDelay * 2 ^ (k - 1)`), and as long as at least one attempt is allowed,
every invocation except the final one is preceded by exactly one wait. -/
theorem withRetry_exponential_backoff (op : Nat → Except E A)
    (maxAttempts initialDelay : Nat) :
    (withRetry op maxAttempts initialDelay).waits
      = (List.range (withRetry op maxAttempts initialDelay).waits.length).map
          (fun k => initialDelay * 2 ^ k)
    ∧ (1 ≤ maxAttempts →
        (withRetry op maxAttempts initialDelay).invocations
          = (withRetry op maxAttempts initialDelay).waits.length + 1) := by
  constructor
  · have h := withRetryAux_waits_geometric op initialDelay maxAttempts 1 0 none 0
    simp only [pow_zero, Nat.mul_one, List.range_zero, List.map_nil] at h
    obtain ⟨m', hm'⟩ := h
    have hgoal : (withRetry op maxAttempts initialDelay).waits
        = (List.range m').map fun k => initialDelay * 2 ^ k := hm'
    rw [hgoal]
    simp
  · intro hmax
    have := withRetryAux_invocations_eq_waits op maxAttempts hmax 1 initialDelay none 0 []
    simp only [List.length_nil] at this
    simp only [withRetry]
    omega

/-- Witness for `withRetry_exponential_backoff` at `opFailsTwice` with
`maxAttempts = 3`, `initialDelay = 4`: the waits are `[4, 8]`. -/
theorem withRetry_exponential_backoff_witness :
    (withRetry opFailsTwice 3 4).waits
        = (List.range (withRetry opFailsTwice 3 4).waits.length).map
            (fun k => 4 * 2 ^ k)
      ∧ (withRetry opFailsTwice 3 4).invocations
          = (withRetry opFailsTwice 3 4).waits.length + 1 :=
  ⟨(withRetry_exponential_backoff opFailsTwice 3 4).1,
   (withRetry_exponential_backoff opFailsTwice 3 4).2 (by decide)⟩

/-- C10: with `maxAttempts = 0` (the only natural number below 1) the loop
body never runs, so the operation is never invoked, no wait happens, and the
function throws the still-undefined `lastError` (modelled `Except.error none`)
instead of returning a result or a descriptive error. -/
theorem withRetry_zero_attempts (op : Nat → Except E A) (delay : Nat) :
    withRetry op 0 delay = ⟨Except.error none, 0, []⟩ := rfl

/-! ### AddressLoader lemmas -/

/-- The validity predicate of the witness scenarios: exactly the strings
`"A"` and `"B"` are syntactically valid addresses. -/
def validAB : String → Bool := fun s => s == "A" || s == "B"

theorem mem_addLine (valid : String → Bool) (addresses : List String)
    (line a : String) :
    a ∈ addLine valid addresses line
      ↔ a ∈ addresses ∨ (valid a = true ∧ trimStr line = a) := by
  unfold addLine
  by_cases hv : valid (trimStr line) = true
  · by_cases hc : trimStr line ∈ addresses
    · simp only [hv, if_true, hc]
      constructor
      · exact Or.inl
      · rintro (h | ⟨hva, rfl⟩)
        · exact h
        · exact hc
    · simp only [hv, if_true, hc, if_false, List.mem_append, List.mem_singleton]
      constructor
      · rintro (h | rfl)
        · exact Or.inl h
        · exact Or.inr ⟨hv, rfl⟩
      · rintro (h | ⟨hva, rfl⟩)
        · exact Or.inl h
        · exact Or.inr rfl
  · simp only [hv, if_false]
    constructor
    · exact Or.inl
    · rintro (h | ⟨hva, rfl⟩)
      · exact h
      · exact absurd hva hv

theorem nodup_addLine (valid : String → Bool) (addresses : List String)
    (line : String) (h : addresses.Nodup) : (addLine valid addresses line).Nodup := by
  unfold addLine
  by_cases hv : valid (trimStr line) = true
  · by_cases hc : trimStr line ∈ addresses
    · simpa [hv, hc] using h
    · simp only [hv, if_true, hc, if_false]
      exact h.append (List.nodup_singleton _) (by simpa using hc)
  · simpa [hv] using h

theorem readAddresses_foldl_invariant (valid : String → Bool) :
    ∀ (lines : List String) (acc : List String),
      (acc.Nodup → (lines.foldl (addLine valid) acc).Nodup)
      ∧ ∀ a, a ∈ lines.foldl (addLine valid) acc
          ↔ a ∈ acc ∨ (valid a = true ∧ ∃ l ∈ lines, trimStr l = a) := by
  intro lines
  induction lines with
  | nil => intro acc; simp
  | cons line rest ih =>
    intro acc
    simp only [List.foldl_cons]
    refine ⟨fun h => (ih (addLine valid acc line)).1 (nodup_addLine valid acc line h), ?_⟩
    intro a
    rw [(ih (addLine valid acc line)).2 a, mem_addLine]
    simp only [List.mem_cons]
    constructor
    · rintro ((h | ⟨hv, ht⟩) | ⟨hv, l, hl, ht⟩)
      · exact Or.inl h
      · exact Or.inr ⟨hv, line, Or.inl rfl, ht⟩
      · exact Or.inr ⟨hv, l, Or.inr hl, ht⟩
    · rintro (h | ⟨hv, l, (rfl | hl), ht⟩)
      · exact Or.inl (Or.inl h)
      · exact Or.inl (Or.inr ⟨hv, ht⟩)
      · exact Or.inr ⟨hv, l, hl, ht⟩

/-- C7: `readAddressesFromFile` keeps exactly the syntactically valid trimmed
lines, each exactly once; invalid lines are dropped without aborting the load.
In particular `["A", "A", "B"]` (both valid) yields the two-member set
`["A", "B"]`, and `["A", "not-an-address", "B"]` yields `["A", "B"]`. -/
theorem readAddressesFromFile_spec (valid : String → Bool) (lines : List String) :
    ((readAddressesFromFile valid lines).Nodup
      ∧ ∀ a, a ∈ readAddressesFromFile valid lines
          ↔ valid a = true ∧ ∃ l ∈ lines, trimStr l = a)
    ∧ readAddressesFromFile validAB ["A", "A", "B"] = ["A", "B"]
    ∧ readAddressesFromFile validAB ["A", "not-an-address", "B"] = ["A", "B"] := by
  refine ⟨⟨?_, ?_⟩, ?_, ?_⟩
  · exact (readAddresses_foldl_invariant valid lines []).1 List.nodup_nil
  · intro a
    rw [readAddressesFromFile, (readAddresses_foldl_invariant valid lines []).2 a]
    simp
  · rfl
  · rfl

/-! ### StakeAccountResolver lemmas -/

/-- A stake account of 200 data bytes whose authority field (offset 44) is
empty-prefixed by `[]`; used by the resolver witness. -/
def acctW : ProgramAccount :=
  ⟨"StakeAcctPubkey", stakeProgramId, List.replicate 200 0⟩

/-- C8: the stake-account scan passes exactly the two documented filters to
the program-account query — a fixed data size of exactly 200 bytes, and a
byte-level match of the 32-byte authority field at offset 44 against the
address bytes — over the stake program's account space, and when the RPC
transport answers on the first attempt the (possibly empty) filter result is
returned as a success after exactly one invocation: an empty scan is not
retried. -/
theorem getStakeAccountsForAddress_spec (rpc : Nat → Except String Unit)
    (ledger : List ProgramAccount) (addressBytes : List Nat)
    (hrpc : rpc 1 = Except.ok ()) :
    (getStakeAccountsForAddress rpc ledger addressBytes).result
        = Except.ok (getProgramAccounts ledger stakeProgramId 200 44 addressBytes)
      ∧ (getStakeAccountsForAddress rpc ledger addressBytes).invocations = 1
      ∧ ∀ acct, acct ∈ getProgramAccounts ledger stakeProgramId 200 44 addressBytes
          ↔ acct ∈ ledger ∧ acct.owner = stakeProgramId ∧ acct.data.length = 200
              ∧ (acct.data.drop 44).take addressBytes.length = addressBytes := by
  refine ⟨?_, ?_, ?_⟩
  · simp [getStakeAccountsForAddress, withRetry, withRetryAux, hrpc, Except.map]
  · simp [getStakeAccountsForAddress, withRetry, withRetryAux, hrpc, Except.map]
  · intro acct
    simp only [getProgramAccounts, List.mem_filter, matchesDataSize, matchesMemcmp,
      Bool.and_eq_true, beq_iff_eq]
    tauto

set_option maxRecDepth 4000 in
/-- Witness for `getStakeAccountsForAddress_spec`: a one-account ledger whose
single stake account matches both filters for the empty address-byte pattern. -/
theorem getStakeAccountsForAddress_spec_witness :
    (getStakeAccountsForAddress (fun _ => Except.ok ()) [acctW] []).result
        = Except.ok [acctW]
      ∧ (getStakeAccountsForAddress (fun _ => Except.ok ()) [acctW] []).invocations
          = 1 :=
  ⟨((by decide : getProgramAccounts [acctW] stakeProgramId 200 44 [] = [acctW])
      ▸ (getStakeAccountsForAddress_spec (fun _ => Except.ok ()) [acctW] [] rfl).1),
   (getStakeAccountsForAddress_spec (fun _ => Except.ok ()) [acctW] [] rfl).2.1⟩

/-! ### SignatureHistoryFetcher lemmas -/

/-- Loop invariant for the cursor pagination over a true history of `n`
records: after `k` full batches the loop holds the first `1000 * k` records,
its cursor is the signature of record `1000 * k - 1` (or `none` before the
first call), and it has made `k` calls; from there it finishes with the whole
history after `(n - 1000 * k) / 1000 + 1` more calls. -/
theorem getSignaturesLoop_hist (n : Nat) :
    ∀ (fuel k : Nat), 1000 * k ≤ n → (n - 1000 * k) / 1000 + 1 ≤ fuel →
      getSignaturesLoop (histFetch n) fuel
          (if k = 0 then none else some (1000 * k - 1))
          (List.range' 0 (1000 * k)) k
        = some (List.range' 0 n, n / 1000 + 1) := by
  intro fuel
  induction fuel with
  | zero => intro k hk hf; omega
  | succ f ih =>
    intro k hk hf
    have hfetch : histFetch n (if k = 0 then none else some (1000 * k - 1))
        = List.range' (1000 * k) (min 1000 (n - 1000 * k)) := by
      by_cases h0 : k = 0
      · subst h0; simp [histFetch]
      · have h1 : 1 ≤ 1000 * k := by
          have : 1 ≤ k := Nat.one_le_iff_ne_zero.mpr h0
          omega
        simp only [h0, if_false, histFetch]
        have : 1000 * k - 1 + 1 = 1000 * k := by omega
        rw [this]
    simp only [getSignaturesLoop, hfetch]
    by_cases hsmall : n - 1000 * k < 1000
    · have hmin : min 1000 (n - 1000 * k) = n - 1000 * k :=
        Nat.min_eq_right (Nat.le_of_lt hsmall)
      rw [hmin]
      have hlen : (List.range' (1000 * k) (n - 1000 * k)).length = n - 1000 * k := by
        simp
      rw [if_neg (by rw [hlen]; omega)]
      have happ : List.range' 0 (1000 * k) ++ List.range' (1000 * k) (n - 1000 * k)
          = List.range' 0 n := by
        have base := List.range'_append_1 0 (1000 * k) (n - 1000 * k)
        rw [Nat.zero_add] at base
        have h2 : n - 1000 * k + 1000 * k = n := by omega
        rw [h2] at base
        exact base
      rw [happ]
      have hdiv : n / 1000 = k := by omega
      rw [hdiv]
    · have hmin : min 1000 (n - 1000 * k) = 1000 :=
        Nat.min_eq_left (by omega)
      rw [hmin]
      have hlen : (List.range' (1000 * k) 1000).length = 1000 := by simp
      rw [if_pos hlen]
      have hlast : (List.range' (1000 * k) 1000).getLast?
          = some (1000 * k + 1000 - 1) := by
        rw [List.getLast?_range']
        simp
      rw [hlast]
      have happ : List.range' 0 (1000 * k) ++ List.range' (1000 * k) 1000
          = List.range' 0 (1000 * (k + 1)) := by
        have base := List.range'_append_1 0 (1000 * k) 1000
        rw [Nat.zero_add] at base
        have h2 : 1000 + 1000 * k = 1000 * (k + 1) := by ring
        rw [h2] at base
        exact base
      rw [happ]
      have hcursor : some (1000 * k + 1000 - 1)
          = if k + 1 = 0 then none else some (1000 * (k + 1) - 1) := by
        simp [Nat.mul_succ]
      rw [hcursor]
      exact ih (k + 1) (by omega) (by omega)

/-- C4: against the RPC semantics of any finite history of `n` records, the
pagination loop of `getSignaturesForAddress` returns the entire history, in
fetched order, using exactly `n / 1000 + 1` calls — each full batch of 1000
triggers one more call with the batch's oldest signature as the new `before`
cursor, and the first batch smaller than 1000 (possibly empty) stops the
loop.  For `n = 2200` this is 2200 records in exactly 3 calls, and for
`n = 1000` it is 1000 records in exactly 2 calls. -/
theorem getSignaturesForAddress_pagination (n fuel : Nat)
    (hfuel : n / 1000 + 1 ≤ fuel) :
    getSignaturesForAddress (histFetch n) fuel
      = some (List.range' 0 n, n / 1000 + 1) := by
  have h := getSignaturesLoop_hist n fuel 0 (by omega) (by simpa using hfuel)
  simpa [getSignaturesForAddress] using h

/-- Witness for `getSignaturesForAddress_pagination`: the two scenarios of the
spec — 1000 + 1000 + 200 records in exactly 3 calls, and 1000 + 0 records in
exactly 2 calls. -/
theorem getSignaturesForAddress_pagination_witness :
    getSignaturesForAddress (histFetch 2200) 3 = some (List.range' 0 2200, 3)
    ∧ getSignaturesForAddress (histFetch 1000) 2 = some (List.range' 0 1000, 2) :=
  ⟨getSignaturesForAddress_pagination 2200 3 (by decide),
   getSignaturesForAddress_pagination 1000 2 (by decide)⟩

theorem getSignaturesLoop_terminates_aux (fetch : Option Nat → List Nat) :
    ∀ (fuel : Nat) (k : Nat) (cursor : Option Nat) (acc : List Nat) (calls : Nat),
      k < fuel → (fetch (cursorTraceFrom fetch cursor k)).length < 1000 →
      (getSignaturesLoop fetch fuel cursor acc calls).isSome = true := by
  intro fuel
  induction fuel with
  | zero => intro k cursor acc calls hk; omega
  | succ f ih =>
    intro k cursor acc calls hk hsmall
    simp only [getSignaturesLoop]
    by_cases hlen : (fetch cursor).length = 1000
    · rw [if_pos hlen]
      cases k with
      | zero =>
        exact absurd hsmall (by simp [cursorTraceFrom, hlen])
      | succ j =>
        exact ih j ((fetch cursor).getLast?) (acc ++ fetch cursor) (calls + 1)
          (by omega) (by simpa [cursorTraceFrom] using hsmall)
    · rw [if_neg hlen]
      rfl

/-- C9: for every signature source along whose cursor trace some batch of
size strictly smaller than 1000 is eventually returned (as happens for every
finite history, including one whose size is an exact multiple of 1000, where
the final batch is empty), the pagination loop terminates with a result. -/
theorem getSignaturesForAddress_terminates (fetch : Option Nat → List Nat)
    (fuel k : Nat) (hk : k < fuel)
    (hsmall : (fetch (cursorTraceFrom fetch none k)).length < 1000) :
    (getSignaturesForAddress fetch fuel).isSome = true :=
  getSignaturesLoop_terminates_aux fetch fuel k none [] 0 hk hsmall

set_option maxRecDepth 20000 in
/-- Witness for `getSignaturesForAddress_terminates`: the exact-multiple
history of 1000 records — the second batch is empty, so the loop terminates
after the second call. -/
theorem getSignaturesForAddress_terminates_witness :
    (getSignaturesForAddress (histFetch 1000) 2).isSome = true :=
  getSignaturesForAddress_terminates (histFetch 1000) 2 1 (by decide) (by decide)

/-! ### Aggregator lemmas -/

/-- The spec's per-address summand: the address's own signature count plus,
exactly when the address classifies as an authority account, the signature
counts of its associated stake accounts. -/
def addressContribution (isStake : String → Bool) (stakes : String → List StakeAcct)
    (sigs : String → List String) (a : String) : Nat :=
  (sigs a).length +
    if classify (isStake a) (!(stakes a).isEmpty) = AccountKind.AuthorityAccount then
      (((stakes a).map StakeAcct.pubkey).map fun s => (sigs s).length).sum
    else 0

theorem pureEnv_parsedIsStake (isStake : String → Bool)
    (stakes : String → List StakeAcct) (sigs : String → List String) (a : String) :
    (pureEnv isStake stakes sigs).parsedIsStake a = Except.ok (isStake a) := rfl

theorem pureEnv_stakeAccts (isStake : String → Bool)
    (stakes : String → List StakeAcct) (sigs : String → List String) (a : String) :
    (pureEnv isStake stakes sigs).stakeAccts a = Except.ok (stakes a) := rfl

theorem pureEnv_sigsFor (isStake : String → Bool)
    (stakes : String → List StakeAcct) (sigs : String → List String) (a : String) :
    (pureEnv isStake stakes sigs).sigsFor a = Except.ok (sigs a) := rfl

theorem addAssociated_pure (isStake : String → Bool) (stakes : String → List StakeAcct)
    (sigs : String → List String) :
    ∀ (l : List String) (t : Nat),
      addAssociated (pureEnv isStake stakes sigs) t l
        = Except.ok (t + (l.map fun s => (sigs s).length).sum) := by
  intro l
  induction l with
  | nil => intro t; simp [addAssociated]
  | cons s rest ih =>
    intro t
    simp only [addAssociated, pureEnv_sigsFor, List.map_cons, List.sum_cons]
    rw [ih]
    congr 1
    omega

theorem processAddress_pure (isStake : String → Bool) (stakes : String → List StakeAcct)
    (sigs : String → List String) (a : String) (t : Nat) :
    processAddress (pureEnv isStake stakes sigs) a t
      = Except.ok (t + addressContribution isStake stakes sigs a) := by
  have hAdd := addAssociated_pure isStake stakes sigs
    ((stakes a).map StakeAcct.pubkey) (t + (sigs a).length)
  unfold processAddress addressContribution classify
  simp only [pureEnv_parsedIsStake, pureEnv_stakeAccts, pureEnv_sigsFor,
    hasStakeAccount, getAssociatedStakeAccounts, Except.map]
  cases hS : isStake a with
  | true => simp [hS]
  | false =>
    cases hE : (stakes a).isEmpty with
    | true => simp [hE]
    | false =>
      simp only [hE, Bool.not_false, Bool.not_true, if_true, if_false,
        Bool.false_and, Bool.and_self]
      rw [hAdd]
      simp [Nat.add_assoc]

theorem getTotalTransactionCount_pure_foldl (isStake : String → Bool)
    (stakes : String → List StakeAcct) (sigs : String → List String) :
    ∀ (addrs : List String) (t : Nat),
      addrs.foldl
          (fun total address =>
            match processAddress (pureEnv isStake stakes sigs) address total with
            | Except.ok t' => t'
            | Except.error (_, t') => t')
          t
        = t + (addrs.map (addressContribution isStake stakes sigs)).sum := by
  intro addrs
  induction addrs with
  | nil => intro t; simp
  | cons a rest ih =>
    intro t
    simp only [List.foldl_cons, List.map_cons, List.sum_cons]
    rw [processAddress_pure, ih]
    simp [Nat.add_assoc]

/-- C1: over every fault-free assignment of the three per-address signals, the
total returned by `getTotalTransactionCount` is exactly the sum, over the
address list, of each address's own signature count plus — exactly when it
classifies as an authority account — the signature counts of its associated
stake accounts; no other summand occurs, so no address's signatures enter the
per-address summand twice. -/
theorem getTotalTransactionCount_eq_sum (isStake : String → Bool)
    (stakes : String → List StakeAcct) (sigs : String → List String)
    (addrs : List String) :
    getTotalTransactionCount (pureEnv isStake stakes sigs) addrs
      = (addrs.map (addressContribution isStake stakes sigs)).sum := by
  unfold getTotalTransactionCount
  rw [getTotalTransactionCount_pure_foldl]
  omega

/-- A both-signals-true environment: the address `"X"` is reported as a stake
account and also has a non-empty associated-stake-account set, and its own
history has exactly one signature. -/
def envTT : Env :=
  pureEnv (fun _ => true) (fun _ => [⟨"S"⟩]) (fun a => if a = "X" then ["sig1"] else [])

/-- Counterexample to C2 as stated: for the signal combination
`isStakeAccountItself = true, hasAssociatedStakeAccounts = true` the branch
chain yields `StakeAccount`, not `Indeterminate`, and such an address is
counted (its own one-signature history contributes 1), not logged-and-skipped
for zero. -/
theorem classify_true_true_counterexample :
    classify true true = AccountKind.StakeAccount
    ∧ AccountKind.StakeAccount ≠ AccountKind.Indeterminate
    ∧ getTotalTransactionCount envTT ["X"] = 1 := by
  refine ⟨rfl, by decide, rfl⟩

/-- C2 amended: the first three decision-table rows hold as stated
(`true,false ↦ StakeAccount`, `false,true ↦ AuthorityAccount`,
`false,false ↦ NormalAccount`), but `true,true ↦ StakeAccount` — the
stake-account test has priority, the address is counted once with its own
signature count only, and with coherent (single-valued) signals the
`Indeterminate`/`'invalid address'` branch is unreachable. -/
theorem classify_decision_table (isStake : String → Bool)
    (stakes : String → List StakeAcct) (sigs : String → List String)
    (a : String) (t : Nat) (h : isStake a = true) :
    classify true false = AccountKind.StakeAccount
    ∧ classify false true = AccountKind.AuthorityAccount
    ∧ classify false false = AccountKind.NormalAccount
    ∧ classify true true = AccountKind.StakeAccount
    ∧ (∀ s hA, classify s hA ≠ AccountKind.Indeterminate)
    ∧ processAddress (pureEnv isStake stakes sigs) a t
        = Except.ok (t + (sigs a).length) := by
  refine ⟨rfl, rfl, rfl, rfl, by decide, ?_⟩
  rw [processAddress_pure]
  unfold addressContribution
  rw [classify, if_pos h]
  simp

/-- Witness for `classify_decision_table`: a concrete both-true address with a
two-signature history contributes exactly its own 2 signatures. -/
theorem classify_decision_table_witness :
    processAddress
        (pureEnv (fun _ => true) (fun _ => [⟨"S"⟩]) (fun _ => ["s1", "s2"])) "X" 0
      = Except.ok 2
    ∧ classify true true = AccountKind.StakeAccount :=
  ⟨(classify_decision_table (fun _ => true) (fun _ => [⟨"S"⟩])
      (fun _ => ["s1", "s2"]) "X" 0 rfl).2.2.2.2.2,
   (classify_decision_table (fun _ => true) (fun _ => [⟨"S"⟩])
      (fun _ => ["s1", "s2"]) "X" 0 rfl).2.2.2.1⟩

/-- An environment in which the authority address `"A"` has two associated
stake accounts, its own history and `"S1"`'s have 3 signatures each, and
fetching `"S2"`'s history always fails (retries exhausted). -/
def envPartial : Env :=
  ⟨fun _ => Except.ok false,
   fun _ => Except.ok [⟨"S1"⟩, ⟨"S2"⟩],
   fun s => if s = "S2" then Except.error "boom" else Except.ok ["a", "b", "c"]⟩

/-- Counterexample to C3 as stated: processing address `"A"` fails (the fetch
for its second associated stake account throws after retries), yet `"A"`
contributes 6 — its own 3 signatures and `"S1"`'s 3, added before the failure
— not "exactly zero". -/
theorem processAddress_partial_counterexample :
    processAddress envPartial "A" 0 = Except.error ("boom", 6)
    ∧ getTotalTransactionCount envPartial ["A"] = 6 := ⟨rfl, rfl⟩

/-- C3 amended: a per-address failure is caught and the run continues with
the remaining addresses, keeping whatever the failed address had already
added; an address whose classification lookup fails has added nothing and so
contributes exactly zero — in particular, with three addresses whose second
fails classification, the total is exactly that of addresses 1 and 3. -/
theorem getTotalTransactionCount_fault_isolation (env : Env)
    (a1 a2 a3 : String) (e : String)
    (h : env.parsedIsStake a2 = Except.error e) :
    getTotalTransactionCount env [a1, a2, a3]
      = getTotalTransactionCount env [a1, a3] := by
  have hskip : ∀ t, (match processAddress env a2 t with
      | Except.ok t' => t'
      | Except.error (_, t') => t') = t := by
    intro t
    simp [processAddress, h]
  simp only [getTotalTransactionCount, List.foldl_cons, List.foldl_nil]
  rw [hskip]

/-- An environment whose classification lookup fails for `"B"` only. -/
def envFailB : Env :=
  ⟨fun a => if a = "B" then Except.error "down" else Except.ok true,
   fun _ => Except.ok [],
   fun _ => Except.ok ["s"]⟩

/-- Witness for `getTotalTransactionCount_fault_isolation`: with `"B"` failing
classification between `"A"` and `"C"`, the run's total equals that of
`["A", "C"]` alone. -/
theorem getTotalTransactionCount_fault_isolation_witness :
    getTotalTransactionCount envFailB ["A", "B", "C"]
      = getTotalTransactionCount envFailB ["A", "C"] :=
  getTotalTransactionCount_fault_isolation envFailB "A" "B" "C" "down" rfl

end SolanaTxnCount
